import Mathlib

/-!
Verification of the daily-progress timer and completion-accounting engine of
the Fragments habit tracker.  The definitions below are a shallow embedding of
the TypeScript source (the App component in `src/components/MoodBar.tsx` and
`src/utils/dateUtils.ts`).  JavaScript numbers are modelled as integers (every
numeric value the engine manipulates is integral: seconds, epoch milliseconds,
counts); `Math.floor` of a quotient is `Int.fdiv`; `Math.max`/`Math.min` are
`max`/`min`; JS objects used as string-keyed records are association lists
with distinct keys.
-/

namespace Fragments

/-- `DailyProgress` record from `src/types.ts`: one per habit per calendar
date.  Numeric fields are JS numbers, modelled as `ℤ`. -/
structure DailyProgress where
  habitId : String
  completed : Bool
  completions : ℤ
  elapsedTime : ℤ
  stepsCompleted : ℤ
  moneyEarned : ℤ
  skipped : Bool
deriving Repr, DecidableEq

/-- The default progress record the source creates lazily:
`{ habitId: id, completed: false, completions: 0, elapsedTime: 0,
stepsCompleted: 0, moneyEarned: 0 }` (`skipped` left undefined = false). -/
def defaultProgress (id : String) : DailyProgress :=
  { habitId := id, completed := false, completions := 0, elapsedTime := 0
    stepsCompleted := 0, moneyEarned := 0, skipped := false }

/-- `GoalFormat` from `src/types.ts`: 'min' | 'times' | '$'. -/
inductive GoalFormat where
  | minutes
  | times
  | dollar
deriving Repr, DecidableEq

/-- `StepType` from `src/types.ts`: 'single' | 'multiple'. -/
inductive StepType where
  | single
  | multiple
deriving Repr, DecidableEq

/-- The fields of `Habit` (`src/types.ts`) that the accounting engine reads.
Optional numeric fields are `Option ℤ` (TS `number | undefined`). -/
structure Habit where
  id : String
  oneTimeValue : Option ℤ
  goal : Option ℤ
  rewardValue : Option ℤ
  stepType : Option StepType
  goalFormat : Option GoalFormat
  stepValue : Option ℤ
deriving Repr, DecidableEq

/-- JavaScript `x || d` for an optional number `x`: `undefined` and `0` are
falsy, every other integer is truthy. -/
def jsOr (x : Option ℤ) (d : ℤ) : ℤ :=
  match x with
  | some v => if v = 0 then d else v
  | none => d

/-- `habit.goal && habit.stepValue ? Math.floor(habit.goal / habit.stepValue) : 0`
(the `stepsCount` local of both accounting handlers; `0` and `undefined` are
falsy in the `&&` test). -/
def stepsCount (h : Habit) : ℤ :=
  match h.goal, h.stepValue with
  | some g, some s => if g ≠ 0 ∧ s ≠ 0 then Int.fdiv g s else 0
  | _, _ => 0

/-- `habit.goalFormat === '$'`. -/
def isMoneyGoal (h : Habit) : Bool := h.goalFormat = some GoalFormat.dollar

/-- `habit.stepType === 'multiple'`. -/
def isMultiStep (h : Habit) : Bool := h.stepType = some StepType.multiple

/-- `handleIncrementCompletion` from the App component, as the pure update it
performs on the habit's `DailyProgress` record for today (the record is the
existing one, or the lazily created default).  The `{ p with ... }` updates
mirror the partial objects passed to `updateHabitProgress`, whose shallow
merge keeps every unmentioned field. -/
def handleIncrementCompletion (h : Habit) (p : DailyProgress) : DailyProgress :=
  if isMultiStep h then
    let sc := stepsCount h
    let newSteps := p.stepsCompleted + 1
    let cyclesCompleted := if 0 < sc then Int.fdiv newSteps sc else 0
    let hasCompletedFirstCycle := decide (0 < sc ∧ sc ≤ newSteps)
    if isMoneyGoal h then
      { p with stepsCompleted := newSteps
               moneyEarned := p.moneyEarned + jsOr h.stepValue 0
               completed := hasCompletedFirstCycle }
    else
      let reward := jsOr h.rewardValue 1
      { p with stepsCompleted := newSteps
               completions := cyclesCompleted * reward
               completed := hasCompletedFirstCycle }
  else
    if isMoneyGoal h then
      { p with moneyEarned := p.moneyEarned + jsOr h.stepValue 0
               completed := true }
    else
      let incrementMins := jsOr h.goal (jsOr h.oneTimeValue 0)
      let reward := jsOr h.rewardValue 1
      { p with completions := p.completions + reward
               completed := true
               elapsedTime := p.elapsedTime + incrementMins * 60 }

/-- `handleDecrementCompletion` from the App component, as the pure update on
an existing `DailyProgress` record (the caller-level guard
`if (!existingProgress) return` is handled by the log-level wrapper below). -/
def handleDecrementCompletion (h : Habit) (p : DailyProgress) : DailyProgress :=
  if isMultiStep h then
    if p.stepsCompleted ≤ 0 then p
    else
      let sc := stepsCount h
      let newSteps := max 0 (p.stepsCompleted - 1)
      let cyclesCompleted := if 0 < sc then Int.fdiv newSteps sc else 0
      if isMoneyGoal h then
        { p with stepsCompleted := newSteps
                 moneyEarned := max 0 (p.moneyEarned - jsOr h.stepValue 0)
                 completed := decide (0 < sc ∧ sc ≤ newSteps) }
      else
        let reward := jsOr h.rewardValue 1
        { p with stepsCompleted := newSteps
                 completions := cyclesCompleted * reward
                 completed := decide (0 < sc ∧ sc ≤ newSteps) }
  else
    if isMoneyGoal h then
      { p with moneyEarned := max 0 (p.moneyEarned - jsOr h.stepValue 0)
               completed := decide (0 < p.moneyEarned - jsOr h.stepValue 0) }
    else
      if p.completions ≤ 0 then p
      else
        let reward := jsOr h.rewardValue 1
        let incrementMins := jsOr h.goal (jsOr h.oneTimeValue 0)
        let newCompletions := max 0 (p.completions - reward)
        { p with completions := newCompletions
                 completed := decide (0 < newCompletions)
                 elapsedTime := max 0 (p.elapsedTime - incrementMins * 60) }

/-! ### JS objects used as string-keyed records

`Record<string, T>` values are modelled as association lists.  `rget` is
property lookup, `rset` is property assignment (replacing in place, as JS
object assignment keeps insertion order for an existing key), `rremove` is
the `{ [k]: _, ...rest }` destructuring delete.  Objects never hold two
entries for one key; `NodupKeys` states that invariant. -/

/-- Association-list model of a JS `Record<string, α>`. -/
abbrev JsRecord (α : Type) := List (String × α)

/-- Property lookup `r[k]` (`undefined` ↦ `none`). -/
def rget {α : Type} : JsRecord α → String → Option α
  | [], _ => none
  | (k', v) :: rest, k => if k' = k then some v else rget rest k

/-- Property assignment `{ ...r, [k]: v }`. -/
def rset {α : Type} : JsRecord α → String → α → JsRecord α
  | [], k, v => [(k, v)]
  | (k', v') :: rest, k, v =>
      if k' = k then (k, v) :: rest else (k', v') :: rset rest k v

/-- Property removal `const { [k]: _, ...rest } = r`. -/
def rremove {α : Type} : JsRecord α → String → JsRecord α
  | [], _ => []
  | (k', v') :: rest, k =>
      if k' = k then rremove rest k else (k', v') :: rremove rest k

/-- A JS object holds at most one entry per key. -/
def NodupKeys {α : Type} (r : JsRecord α) : Prop :=
  (r.map Prod.fst).Nodup

/-- `DailyLog` from `src/types.ts`. -/
structure DailyLog where
  date : String
  mood : ℤ
  progress : JsRecord DailyProgress
deriving Repr, DecidableEq

/-- The lazily created empty log `{ date, mood: 0, progress: {} }`. -/
def emptyLog (date : String) : DailyLog := { date := date, mood := 0, progress := [] }

/-- An `ActiveTimer` entry: `{ startedAt: ms, accumulatedTime: seconds }`. -/
structure TimerEntry where
  startedAt : ℤ
  accumulatedTime : ℤ
deriving Repr, DecidableEq

/-- Modelled from the spec: the `MAX_SESSION_SECONDS` hard ceiling.  The
constant `TIMER_MAX_DURATION_SECONDS` is imported from `constants.ts`, which
is not part of the sources; the spec fixes it as a maximum session duration
of two hours, i.e. 7200 seconds (every claim below holds for any positive
value). -/
def TIMER_MAX_DURATION_SECONDS : ℤ := 7200

/-- `computeElapsedTime` from the App component:
`Math.min(Math.floor(timer.accumulatedTime + (Date.now() - timer.startedAt) / 1000), TIMER_MAX_DURATION_SECONDS)`.
`now` and `startedAt` are epoch milliseconds.  Since `accumulatedTime` is an
integer, `Math.floor(acc + ms/1000) = acc + ⌊ms/1000⌋`, and `Math.floor` of a
real quotient of integers is `Int.fdiv`. -/
def computeElapsedTime (t : TimerEntry) (now : ℤ) : ℤ :=
  min (t.accumulatedTime + Int.fdiv (now - t.startedAt) 1000)
    TIMER_MAX_DURATION_SECONDS

/-- The raw recomputed elapsed seconds used by the restore-on-mount effect
(`Math.floor(timer.accumulatedTime + (Date.now() - timer.startedAt) / 1000)`,
without the `min` cap). -/
def rawElapsed (t : TimerEntry) (now : ℤ) : ℤ :=
  t.accumulatedTime + Int.fdiv (now - t.startedAt) 1000

/-- The body of the `for (const [id, timer] of Object.entries(timers))` loop
inside `syncTimersToLogs`: write the timer's derived elapsed time into the
progress map. -/
def syncProgressStep (now : ℤ) (np : JsRecord DailyProgress)
    (idt : String × TimerEntry) : JsRecord DailyProgress :=
  let elapsed := computeElapsedTime idt.2 now
  let p := (rget np idt.1).getD (defaultProgress idt.1)
  rset np idt.1 { p with elapsedTime := elapsed }

/-- `syncTimersToLogs` from the App component: writes each running timer's
derived elapsed time into today's log.  In the source, `todayStr` is
`getTodayInTimezone(userTimezone)` evaluated inside the `setLogs` updater at
call time; it is passed here as an argument so that each caller supplies the
value that call would observe. -/
def syncTimersToLogs (timers : JsRecord TimerEntry) (now : ℤ) (todayStr : String)
    (logs : JsRecord DailyLog) : JsRecord DailyLog :=
  if timers.isEmpty then logs
  else
    let existingLog := (rget logs todayStr).getD (emptyLog todayStr)
    let newProgress := timers.foldl (syncProgressStep now) existingLog.progress
    rset logs todayStr { existingLog with progress := newProgress }

/-- `stopTimer` from the App component: if the habit has a running timer,
finalize its derived elapsed time into today's log and discard the entry;
otherwise do nothing (`if (!timer) return prev`). -/
def stopTimer (habitId : String) (timers : JsRecord TimerEntry) (now : ℤ)
    (todayStr : String) (logs : JsRecord DailyLog) :
    JsRecord TimerEntry × JsRecord DailyLog :=
  match rget timers habitId with
  | none => (timers, logs)
  | some timer =>
      let elapsed := computeElapsedTime timer now
      let existingLog := (rget logs todayStr).getD (emptyLog todayStr)
      let p := (rget existingLog.progress habitId).getD (defaultProgress habitId)
      let logs' := rset logs todayStr
        { existingLog with
          progress := rset existingLog.progress habitId { p with elapsedTime := elapsed } }
      (rremove timers habitId, logs')

/-- The body of the 1-second interval in the App component (and, identically,
of the `visibilitychange` handler): for every running timer whose derived
elapsed time has reached the cap, `stopTimer` it; afterwards sync the
remaining timers into today's log.  The iteration over the snapshot
`Object.entries(timersRef.current)` is the structural recursion below. -/
def runAutoStops (entries : List (String × TimerEntry)) (now : ℤ) (todayStr : String)
    (st : JsRecord TimerEntry × JsRecord DailyLog) :
    JsRecord TimerEntry × JsRecord DailyLog :=
  match entries with
  | [] => st
  | (id, timer) :: rest =>
      let st' :=
        if TIMER_MAX_DURATION_SECONDS ≤ computeElapsedTime timer now
        then stopTimer id st.1 now todayStr st.2
        else st
      runAutoStops rest now todayStr st'

/-- One pass of the per-second tick `useEffect` (and of `onVisible`): auto-stop
every capped timer, then `syncTimersToLogs(activeTimersRef.current)`. -/
def tickPass (timers : JsRecord TimerEntry) (now : ℤ) (todayStr : String)
    (logs : JsRecord DailyLog) : JsRecord TimerEntry × JsRecord DailyLog :=
  let st := runAutoStops timers now todayStr (timers, logs)
  (st.1, syncTimersToLogs st.1 now todayStr st.2)

/-- `toggleTimer` from the App component: stop-and-finalize when running,
otherwise start with `startedAt = now` and `accumulatedTime` = today's
recorded elapsed time (`currentLog.progress[habitId]?.elapsedTime || 0`). -/
def toggleTimer (habitId : String) (timers : JsRecord TimerEntry) (now : ℤ)
    (todayStr : String) (logs : JsRecord DailyLog) :
    JsRecord TimerEntry × JsRecord DailyLog :=
  match rget timers habitId with
  | some timer =>
      let elapsed := computeElapsedTime timer now
      let existingLog := (rget logs todayStr).getD (emptyLog todayStr)
      let p := (rget existingLog.progress habitId).getD (defaultProgress habitId)
      let logs' := rset logs todayStr
        { existingLog with
          progress := rset existingLog.progress habitId { p with elapsedTime := elapsed } }
      (rremove timers habitId, logs')
  | none =>
      let currentLog := (rget logs todayStr).getD (emptyLog todayStr)
      let currentElapsed :=
        ((rget currentLog.progress habitId).map DailyProgress.elapsedTime).getD 0
      (rset timers habitId { startedAt := now, accumulatedTime := currentElapsed }, logs)

/-- The body of the restore loop: keep the entry only when its raw recomputed
elapsed time is strictly below the cap. -/
def restoreStep (now : ℤ) (acc : JsRecord TimerEntry)
    (idt : String × TimerEntry) : JsRecord TimerEntry :=
  if rawElapsed idt.2 now < TIMER_MAX_DURATION_SECONDS
  then rset acc idt.1 idt.2 else acc

/-- The restore-on-mount `useEffect` of the App component: recompute each
persisted timer's elapsed time (`Math.floor(acc + (Date.now()-startedAt)/1000)`,
with no `min`), keep only those strictly below the cap, then sync the
survivors into today's log.  Returns the restored timer set and the updated
logs. -/
def restoreActiveTimers (parsed : JsRecord TimerEntry) (now : ℤ) (todayStr : String)
    (logs : JsRecord DailyLog) : JsRecord TimerEntry × JsRecord DailyLog :=
  let stillActive := parsed.foldl (restoreStep now) []
  (stillActive, syncTimersToLogs stillActive now todayStr logs)

/-- The day-rollover 60-second interval body of the App component.  `current`
is the value of `getTodayInTimezone(userTimezone)` at the moment the interval
fires, `today` the stored date pointer.  On a change it calls
`syncTimersToLogs` — which itself re-evaluates `getTodayInTimezone`, obtaining
`current` again — then advances `today` and clears all timers.  Returns
(new today pointer, new timer set, new logs). -/
def dayRolloverCheck (current today : String) (timers : JsRecord TimerEntry)
    (now : ℤ) (logs : JsRecord DailyLog) :
    String × JsRecord TimerEntry × JsRecord DailyLog :=
  if current ≠ today then
    (current, [], syncTimersToLogs timers now current logs)
  else
    (today, timers, logs)

/-- `updateHabitProgress`-style shallow merge specialised to one full record:
writes `p` as the habit's progress for `todayStr`, creating the log lazily. -/
def writeProgress (todayStr : String) (habitId : String) (p : DailyProgress)
    (logs : JsRecord DailyLog) : JsRecord DailyLog :=
  let existingLog := (rget logs todayStr).getD (emptyLog todayStr)
  rset logs todayStr { existingLog with progress := rset existingLog.progress habitId p }

/-- Log-level `handleIncrementCompletion`: reads the existing record or the
default, applies the pure update, merges it back into today's log. -/
def incrementInLog (h : Habit) (todayStr : String) (logs : JsRecord DailyLog) :
    JsRecord DailyLog :=
  let currentLog := (rget logs todayStr).getD (emptyLog todayStr)
  let existing := (rget currentLog.progress h.id).getD (defaultProgress h.id)
  writeProgress todayStr h.id (handleIncrementCompletion h existing) logs

/-- Log-level `handleDecrementCompletion`, including the source's
`if (!existingProgress) return` guard: with no record for the habit today the
call is a silent no-op. -/
def decrementInLog (h : Habit) (todayStr : String) (logs : JsRecord DailyLog) :
    JsRecord DailyLog :=
  let currentLog := (rget logs todayStr).getD (emptyLog todayStr)
  match rget currentLog.progress h.id with
  | none => logs
  | some existing =>
      writeProgress todayStr h.id (handleDecrementCompletion h existing) logs

/-- `updateMood` from the App component: `{ ...currentLog, mood }`. -/
def updateMood (todayStr : String) (mood : ℤ) (logs : JsRecord DailyLog) :
    JsRecord DailyLog :=
  let currentLog := (rget logs todayStr).getD (emptyLog todayStr)
  rset logs todayStr { currentLog with mood := mood }

/-! ### Clock/Date service (`src/utils/dateUtils.ts`)

`Intl.DateTimeFormat` is a platform API, modelled by an environment: which
timezone names the platform supports, what string a supported zone formats an
instant to, and the system default zone.  Per ECMA-402 (and as exercised by
`getTimezoneOffset`/`getTimeInTimezone` in the same source file, which wrap
their `Intl` calls in `try`/`catch`), constructing `Intl.DateTimeFormat` with
an unsupported `timeZone` throws a `RangeError`; this is the `.error` case. -/

/-- The platform `Intl` environment: the system default timezone, the set of
supported timezone names, and the `en-CA` `YYYY-MM-DD` formatting function for
supported zones. -/
structure IntlEnv where
  systemTimeZone : String
  supported : String → Bool
  fmtDate : String → ℤ → String

/-- `new Intl.DateTimeFormat('en-CA', { timeZone: tz, ... }).format(date)`:
formats when `tz` is supported, throws a `RangeError` otherwise. -/
def intlFormatYMD (env : IntlEnv) (tz : String) (date : ℤ) : Except String String :=
  if env.supported tz then Except.ok (env.fmtDate tz date)
  else Except.error "RangeError: invalid time zone"

/-- `formatDateInTimezone` from `src/utils/dateUtils.ts`:
`const tz = timezone || Intl.DateTimeFormat().resolvedOptions().timeZone;`
followed by the (uncaught) `Intl.DateTimeFormat` construction and format.
`timezone` is `string | undefined`; `undefined` and the empty string are
falsy. -/
def formatDateInTimezone (env : IntlEnv) (date : ℤ) (timezone : Option String) :
    Except String String :=
  let tz := match timezone with
    | some t => if t = "" then env.systemTimeZone else t
    | none => env.systemTimeZone
  intlFormatYMD env tz date

/-- `getTodayInTimezone` from `src/utils/dateUtils.ts`:
`formatDateInTimezone(new Date(), timezone)`; `now` is the current instant. -/
def getTodayInTimezone (env : IntlEnv) (now : ℤ) (timezone : Option String) :
    Except String String :=
  formatDateInTimezone env now timezone

/-! ### Derived accessors and invariants -/

/-- The progress record stored for habit `i` on date `d`, if any. -/
def progressAt (logs : JsRecord DailyLog) (d i : String) : Option DailyProgress :=
  (rget logs d).bind fun lg => rget lg.progress i

/-- All numeric fields of a `DailyProgress` record are non-negative. -/
def NonnegProgress (p : DailyProgress) : Prop :=
  0 ≤ p.completions ∧ 0 ≤ p.stepsCompleted ∧ 0 ≤ p.moneyEarned ∧ 0 ≤ p.elapsedTime

/-- Every progress record of a `DailyLog` is non-negative. -/
def NonnegLog (lg : DailyLog) : Prop :=
  ∀ i p, rget lg.progress i = some p → NonnegProgress p

/-- Every progress record anywhere in the log collection is non-negative. -/
def NonnegLogs (logs : JsRecord DailyLog) : Prop :=
  ∀ d lg, rget logs d = some lg → NonnegLog lg

/-- The habit's numeric configuration values, as the engine reads them, are
non-negative. -/
def NonnegHabitValues (h : Habit) : Prop :=
  0 ≤ jsOr h.stepValue 0 ∧ 0 ≤ jsOr h.rewardValue 1
    ∧ 0 ≤ jsOr h.goal (jsOr h.oneTimeValue 0)

/-- Every active-timer entry has a non-negative banked duration and was
started no later than the current instant. -/
def TimersValid (ts : JsRecord TimerEntry) (now : ℤ) : Prop :=
  ∀ e ∈ ts, 0 ≤ e.2.accumulatedTime ∧ e.2.startedAt ≤ now

/-! ### Lemmas about the record model -/

theorem rget_rset_self {α : Type} (r : JsRecord α) (k : String) (v : α) :
    rget (rset r k v) k = some v := by
  induction r with
  | nil => simp [rset, rget]
  | cons e rest ih =>
    obtain ⟨k', v'⟩ := e
    by_cases hk : k' = k
    · simp [rset, hk, rget]
    · simp [rset, hk, rget, ih]

theorem rget_rset_ne {α : Type} (r : JsRecord α) (k k' : String) (v : α)
    (hne : k' ≠ k) : rget (rset r k v) k' = rget r k' := by
  have hne' : ¬ k = k' := fun h => hne h.symm
  induction r with
  | nil => simp [rset, rget, if_neg hne']
  | cons e rest ih =>
    obtain ⟨k₀, v₀⟩ := e
    by_cases hk : k₀ = k
    · subst hk
      simp [rset, rget, if_neg hne']
    · simp only [rset, if_neg hk, rget]
      by_cases hk' : k₀ = k'
      · simp [hk']
      · simp [hk', ih]

theorem rget_rremove_self {α : Type} (r : JsRecord α) (k : String) :
    rget (rremove r k) k = none := by
  induction r with
  | nil => simp [rremove, rget]
  | cons e rest ih =>
    obtain ⟨k₀, v₀⟩ := e
    by_cases hk : k₀ = k
    · simp [rremove, hk, ih]
    · simp [rremove, hk, rget, ih]

theorem rget_rremove_ne {α : Type} (r : JsRecord α) (k k' : String)
    (hne : k' ≠ k) : rget (rremove r k) k' = rget r k' := by
  have hne' : ¬ k = k' := fun h => hne h.symm
  induction r with
  | nil => simp [rremove]
  | cons e rest ih =>
    obtain ⟨k₀, v₀⟩ := e
    by_cases hk : k₀ = k
    · subst hk
      simp [rremove, rget, if_neg hne', ih]
    · simp only [rremove, if_neg hk, rget]
      by_cases hk' : k₀ = k'
      · simp [hk']
      · simp [hk', ih]

theorem rget_eq_none_of_forall {α : Type} {r : JsRecord α} {k : String}
    (h : ∀ e ∈ r, e.1 ≠ k) : rget r k = none := by
  induction r with
  | nil => simp [rget]
  | cons e rest ih =>
    obtain ⟨k₀, v₀⟩ := e
    have hk : k₀ ≠ k := h (k₀, v₀) (by simp)
    simp only [rget, if_neg hk]
    exact ih fun e he => h e (by simp [he])

theorem forall_ne_of_rget_none {α : Type} {r : JsRecord α} {k : String}
    (h : rget r k = none) : ∀ e ∈ r, e.1 ≠ k := by
  induction r with
  | nil => simp
  | cons e rest ih =>
    obtain ⟨k₀, v₀⟩ := e
    simp only [rget] at h
    by_cases hk : k₀ = k
    · simp [hk] at h
    · intro e' he'
      rcases List.mem_cons.mp he' with he' | he'
      · simp [he', hk]
      · exact ih (by simpa [hk] using h) e' he'

theorem mem_of_rget {α : Type} {r : JsRecord α} {k : String} {v : α}
    (h : rget r k = some v) : (k, v) ∈ r := by
  induction r with
  | nil => simp [rget] at h
  | cons e rest ih =>
    obtain ⟨k₀, v₀⟩ := e
    simp only [rget] at h
    by_cases hk : k₀ = k
    · simp [hk] at h
      simp [hk, h]
    · simp only [if_neg hk] at h
      exact List.mem_cons.mpr (Or.inr (ih h))

theorem find_entry_of_rget {α : Type} {r : JsRecord α} {k : String} {v : α}
    (h : rget r k = some v) :
    r.find? (fun e => e.1 == k) = some (k, v) := by
  induction r with
  | nil => simp [rget] at h
  | cons e rest ih =>
    obtain ⟨k₀, v₀⟩ := e
    simp only [rget] at h
    by_cases hk : k₀ = k
    · simp [hk] at h
      rw [List.find?_cons_of_pos _ (by simp [hk])]
      simp [hk, h]
    · simp only [if_neg hk] at h
      rw [List.find?_cons_of_neg _ (by simp [hk])]
      exact ih h

theorem mem_rset {α : Type} {r : JsRecord α} {k : String} {v : α} {e : String × α}
    (h : e ∈ rset r k v) : e ∈ r ∨ e = (k, v) := by
  induction r with
  | nil => simpa [rset] using h
  | cons e₀ rest ih =>
    obtain ⟨k₀, v₀⟩ := e₀
    by_cases hk : k₀ = k
    · simp only [rset, if_pos hk] at h
      rcases List.mem_cons.mp h with h | h
      · exact Or.inr h
      · exact Or.inl (List.mem_cons.mpr (Or.inr h))
    · simp only [rset, if_neg hk] at h
      rcases List.mem_cons.mp h with h | h
      · exact Or.inl (List.mem_cons.mpr (Or.inl h))
      · rcases ih h with h | h
        · exact Or.inl (List.mem_cons.mpr (Or.inr h))
        · exact Or.inr h

theorem mem_rremove {α : Type} {r : JsRecord α} {k : String} {e : String × α}
    (h : e ∈ rremove r k) : e ∈ r := by
  induction r with
  | nil => simp [rremove] at h
  | cons e₀ rest ih =>
    obtain ⟨k₀, v₀⟩ := e₀
    by_cases hk : k₀ = k
    · simp only [rremove, if_pos hk] at h
      exact List.mem_cons.mpr (Or.inr (ih h))
    · simp only [rremove, if_neg hk] at h
      rcases List.mem_cons.mp h with h | h
      · exact List.mem_cons.mpr (Or.inl h)
      · exact List.mem_cons.mpr (Or.inr (ih h))

/-! ### Arithmetic helpers -/

theorem fdiv_thousand_mono {a b : ℤ} (h : a ≤ b) :
    Int.fdiv a 1000 ≤ Int.fdiv b 1000 := by
  rw [Int.fdiv_eq_ediv _ (by norm_num), Int.fdiv_eq_ediv _ (by norm_num)]
  exact Int.ediv_le_ediv (by norm_num) h

/-! ### Claim C6 -/

/-- **C6**: for every running timer, the derived elapsed time equals exactly
`min(accumulatedTime + (now - startedAt), MAX_SESSION_SECONDS)` — stated both
at millisecond precision exactly as the source computes it and at whole-second
offsets as the spec writes it — and repeated evaluations with non-decreasing
`now` never decrease the derived elapsed time. -/
theorem c6_elapsed_time_formula_and_monotonicity
    (t : TimerEntry) (A T0 s now1 now2 : ℤ) :
    computeElapsedTime t now1 =
      min (t.accumulatedTime + Int.fdiv (now1 - t.startedAt) 1000)
        TIMER_MAX_DURATION_SECONDS
    ∧ computeElapsedTime { startedAt := T0, accumulatedTime := A } (T0 + s * 1000) =
      min (A + s) TIMER_MAX_DURATION_SECONDS
    ∧ (now1 ≤ now2 → computeElapsedTime t now1 ≤ computeElapsedTime t now2) := by
  refine ⟨rfl, ?_, ?_⟩
  · show min (A + Int.fdiv (T0 + s * 1000 - T0) 1000) _ = _
    rw [show T0 + s * 1000 - T0 = s * 1000 by ring,
      Int.mul_fdiv_cancel s (by norm_num)]
  · intro hle
    unfold computeElapsedTime
    have hm := fdiv_thousand_mono (show now1 - t.startedAt ≤ now2 - t.startedAt by omega)
    exact min_le_min (by omega) le_rfl

/-- Witness for C6 at a concrete timer and pair of instants. -/
theorem c6_witness :
    (0 : ℤ) ≤ 5000 ∧
    computeElapsedTime { startedAt := 0, accumulatedTime := 10 } 0 ≤
      computeElapsedTime { startedAt := 0, accumulatedTime := 10 } 5000 :=
  ⟨by norm_num,
    (c6_elapsed_time_formula_and_monotonicity
      { startedAt := 0, accumulatedTime := 10 } 10 0 5 0 5000).2.2 (by norm_num)⟩

/-! ### Claim C3 -/

/-- **C3** counterexample: in a platform environment whose only supported zone
is "UTC" (system default "UTC"), resolving a date with the unsupported name
"Etc/Bogus" does **not** fall back to the system default — the uncaught
`Intl.DateTimeFormat` `RangeError` propagates out of `formatDateInTimezone`. -/
theorem c3_counterexample :
    formatDateInTimezone
        { systemTimeZone := "UTC", supported := fun s => s = "UTC",
          fmtDate := fun _ _ => "2024-01-01" } 0 (some "Etc/Bogus")
      = Except.error "RangeError: invalid time zone"
    ∧ (Except.error "RangeError: invalid time zone" : Except String String)
      ≠ Except.ok "2024-01-01" := by
  exact ⟨rfl, by simp⟩

/-- **C3** amended: `formatDateInTimezone` falls back to the system default
timezone only when the `timezone` argument is absent (`undefined`) or empty;
a non-empty unsupported name is passed straight to `Intl.DateTimeFormat`,
whose exception is not caught and propagates to the caller.
`getTodayInTimezone` is the same resolution applied to the current instant. -/
theorem c3_amended_fallback_only_when_absent (env : IntlEnv) (date : ℤ) (t : String)
    (hsys : env.supported env.systemTimeZone = true) :
    formatDateInTimezone env date none = Except.ok (env.fmtDate env.systemTimeZone date)
    ∧ formatDateInTimezone env date (some "") =
        Except.ok (env.fmtDate env.systemTimeZone date)
    ∧ (env.supported t = true → t ≠ "" →
        formatDateInTimezone env date (some t) = Except.ok (env.fmtDate t date))
    ∧ (env.supported t = false → t ≠ "" →
        formatDateInTimezone env date (some t) =
          Except.error "RangeError: invalid time zone")
    ∧ getTodayInTimezone env date none = formatDateInTimezone env date none := by
  refine ⟨?_, ?_, ?_, ?_, rfl⟩
  · simp [formatDateInTimezone, intlFormatYMD, hsys]
  · simp [formatDateInTimezone, intlFormatYMD, hsys]
  · intro hs ht
    simp [formatDateInTimezone, intlFormatYMD, ht, hs]
  · intro hs ht
    simp [formatDateInTimezone, intlFormatYMD, ht, hs]

/-- Witness for the amended C3 in a concrete environment. -/
theorem c3_witness :
    ({ systemTimeZone := "UTC", supported := fun s => s = "UTC",
       fmtDate := fun _ _ => "2024-01-01" } : IntlEnv).supported "UTC" = true
    ∧ formatDateInTimezone
        { systemTimeZone := "UTC", supported := fun s => s = "UTC",
          fmtDate := fun _ _ => "2024-01-01" } 0 none = Except.ok "2024-01-01" :=
  ⟨by decide,
    (c3_amended_fallback_only_when_absent
      { systemTimeZone := "UTC", supported := fun s => s = "UTC",
        fmtDate := fun _ _ => "2024-01-01" } 0 "X" (by decide)).1⟩

/-! ### Claim C4 -/

/-- **C4** counterexample: for a single-step count habit with
`rewardValue = 1`, starting from the state `completions = 0, completed = true`
(the `completed` flag not matching its derived value), increment followed by
decrement lands on `completed = false`, so the round trip does not restore
`completed` for every starting `DailyProgress` state. -/
theorem c4_counterexample :
    (handleDecrementCompletion
        { id := "c", oneTimeValue := none, goal := some 10, rewardValue := some 1,
          stepType := some StepType.single, goalFormat := some GoalFormat.times,
          stepValue := none }
        (handleIncrementCompletion
          { id := "c", oneTimeValue := none, goal := some 10, rewardValue := some 1,
            stepType := some StepType.single, goalFormat := some GoalFormat.times,
            stepValue := none }
          { habitId := "c", completed := true, completions := 0, elapsedTime := 0,
            stepsCompleted := 0, moneyEarned := 0, skipped := false })).completed
      ≠ ({ habitId := "c", completed := true, completions := 0, elapsedTime := 0,
           stepsCompleted := 0, moneyEarned := 0, skipped := false }
          : DailyProgress).completed := by
  decide

/-- **C4** amended: for a single-step count/time habit with `rewardValue = r ≥ 1`,
increment followed immediately by decrement (same habit configuration) restores
the whole `DailyProgress` record — in particular `completions`, `completed` and
`elapsedTime` — provided the starting state satisfies the data-model invariants:
numeric fields non-negative and the derived flag `completed = (completions > 0)`. -/
theorem c4_amended_roundtrip (h : Habit) (p : DailyProgress) (r : ℤ)
    (hsingle : h.stepType ≠ some StepType.multiple)
    (hmoney : h.goalFormat ≠ some GoalFormat.dollar)
    (hr : h.rewardValue = some r) (hr1 : 1 ≤ r)
    (hc : 0 ≤ p.completions) (he : 0 ≤ p.elapsedTime)
    (hflag : p.completed = decide (0 < p.completions)) :
    handleDecrementCompletion h (handleIncrementCompletion h p) = p := by
  have hms : isMultiStep h = false := by simp [isMultiStep, hsingle]
  have hmg : isMoneyGoal h = false := by simp [isMoneyGoal, hmoney]
  have hrv : jsOr h.rewardValue 1 = r := by
    rw [hr]
    simp only [jsOr]
    rw [if_neg (by omega : ¬ r = 0)]
  cases p with
  | mk pid pcd pc pe ps pm psk =>
    simp only at hc he hflag
    simp only [handleIncrementCompletion, handleDecrementCompletion, hms, hmg,
      Bool.false_eq_true, if_false, hrv]
    rw [if_neg (by omega : ¬ pc + r ≤ 0)]
    simp only [DailyProgress.mk.injEq]
    refine ⟨by trivial, ?_, by omega, by omega, by trivial, by trivial, by trivial⟩
    rw [hflag]
    exact decide_eq_decide.mpr (by omega)

/-- Witness for the amended C4 at a concrete habit and valid state. -/
theorem c4_witness :
    handleDecrementCompletion
        { id := "c", oneTimeValue := none, goal := some 10, rewardValue := some 2,
          stepType := some StepType.single, goalFormat := some GoalFormat.times,
          stepValue := none }
        (handleIncrementCompletion
          { id := "c", oneTimeValue := none, goal := some 10, rewardValue := some 2,
            stepType := some StepType.single, goalFormat := some GoalFormat.times,
            stepValue := none }
          { habitId := "c", completed := true, completions := 3, elapsedTime := 120,
            stepsCompleted := 0, moneyEarned := 0, skipped := false })
      = { habitId := "c", completed := true, completions := 3, elapsedTime := 120,
          stepsCompleted := 0, moneyEarned := 0, skipped := false } :=
  c4_amended_roundtrip _ _ 2 (by decide) (by decide) rfl (by norm_num)
    (by norm_num) (by norm_num) (by decide)

/-! ### Claim C8 -/

/-- **C8** counterexample: decrementing a single-step money habit whose
`moneyEarned` is already 0 is not always a no-op — from the state
`moneyEarned = 0, completed = true` it flips `completed` to `false`, changing
the `DailyProgress` record. -/
theorem c8_counterexample :
    handleDecrementCompletion
        { id := "d", oneTimeValue := none, goal := none, rewardValue := none,
          stepType := some StepType.single, goalFormat := some GoalFormat.dollar,
          stepValue := some 1 }
        { habitId := "d", completed := true, completions := 0, elapsedTime := 0,
          stepsCompleted := 0, moneyEarned := 0, skipped := false }
      ≠ { habitId := "d", completed := true, completions := 0, elapsedTime := 0,
          stepsCompleted := 0, moneyEarned := 0, skipped := false } := by
  decide

/-- **C8** amended: decrement is a strict silent no-op in every "nothing banked"
case that is guarded in the source — zero (or negative) `completions` for a
single-step count/time habit, zero (or negative) `stepsCompleted` for any
multi-step habit, and a habit with no progress record today.  For a
single-step money habit with `moneyEarned = 0` there is no guard: the record
is left entirely unchanged only when its `completed` flag is already `false`
(the money subtraction itself is clamped at 0). -/
theorem c8_amended_silent_noop (h : Habit) (p : DailyProgress) :
    (h.stepType ≠ some StepType.multiple → h.goalFormat ≠ some GoalFormat.dollar →
      p.completions ≤ 0 → handleDecrementCompletion h p = p)
    ∧ (h.stepType = some StepType.multiple → p.stepsCompleted ≤ 0 →
        handleDecrementCompletion h p = p)
    ∧ (h.stepType ≠ some StepType.multiple → h.goalFormat = some GoalFormat.dollar →
        p.moneyEarned = 0 → 0 ≤ jsOr h.stepValue 0 → p.completed = false →
        handleDecrementCompletion h p = p)
    ∧ (∀ todayStr logs,
        rget (((rget logs todayStr).getD (emptyLog todayStr)).progress) h.id = none →
        decrementInLog h todayStr logs = logs) := by
  refine ⟨?_, ?_, ?_, ?_⟩
  · intro hsingle hmoney hc
    have hms : isMultiStep h = false := by simp [isMultiStep, hsingle]
    have hmg : isMoneyGoal h = false := by simp [isMoneyGoal, hmoney]
    simp only [handleDecrementCompletion, hms, hmg, Bool.false_eq_true, if_false]
    rw [if_pos hc]
  · intro hmulti hs
    have hms : isMultiStep h = true := by simp [isMultiStep, hmulti]
    simp only [handleDecrementCompletion, hms, if_true]
    rw [if_pos hs]
  · intro hsingle hmoney hm hsv hcd
    have hms : isMultiStep h = false := by simp [isMultiStep, hsingle]
    have hmg : isMoneyGoal h = true := by simp [isMoneyGoal, hmoney]
    cases p with
    | mk pid pcd pc pe ps pm psk =>
      simp only at hm hcd
      subst hm hcd
      simp only [handleDecrementCompletion, hms, hmg, Bool.false_eq_true, if_false,
        if_true, DailyProgress.mk.injEq]
      refine ⟨by trivial, ?_, by trivial, by trivial, by trivial, by omega, by trivial⟩
      simp only [decide_eq_false_iff_not]
      omega
  · intro todayStr logs habsent
    simp only [decrementInLog]
    rw [habsent]

/-- Witness for the amended C8: each guarded branch at a concrete habit and
state. -/
theorem c8_witness :
    handleDecrementCompletion
        { id := "t", oneTimeValue := none, goal := some 10, rewardValue := some 1,
          stepType := some StepType.single, goalFormat := some GoalFormat.times,
          stepValue := none }
        { habitId := "t", completed := false, completions := 0, elapsedTime := 0,
          stepsCompleted := 0, moneyEarned := 0, skipped := false }
      = { habitId := "t", completed := false, completions := 0, elapsedTime := 0,
          stepsCompleted := 0, moneyEarned := 0, skipped := false } :=
  (c8_amended_silent_noop _ _).1 (by decide) (by decide) (by norm_num)

/-! ### Claim C9 -/

/-- **C9**: for every multi-step habit whose `goal` or `stepValue` is unset
(so `stepsCount` resolves to 0), every sequence of increments still increases
`stepsCompleted` one per increment but leaves `completions` at 0 and
`completed` at `false` — the habit never reaches completion via cycles, and
the handler is a total function (no exception). -/
theorem c9_zero_cycle_is_benign (h : Habit) (p0 : DailyProgress)
    (hmulti : h.stepType = some StepType.multiple)
    (hunset : h.goal = none ∨ h.stepValue = none)
    (hc0 : p0.completions = 0) :
    ∀ n : ℕ,
      ((handleIncrementCompletion h)^[n] p0).stepsCompleted = p0.stepsCompleted + n
      ∧ ((handleIncrementCompletion h)^[n] p0).completions = 0
      ∧ (1 ≤ n → ((handleIncrementCompletion h)^[n] p0).completed = false) := by
  have hsc : stepsCount h = 0 := by
    unfold stepsCount
    rcases hunset with hg | hs
    · rw [hg]
    · rw [hs]
      cases h.goal <;> rfl
  have hms : isMultiStep h = true := by simp [isMultiStep, hmulti]
  intro n
  induction n with
  | zero =>
    refine ⟨by simp, by simpa using hc0, fun hcon => absurd hcon (by norm_num)⟩
  | succ m ih =>
    obtain ⟨ihs, ihc, _⟩ := ih
    rw [Function.iterate_succ_apply']
    by_cases hmg : isMoneyGoal h = true
    · simp only [handleIncrementCompletion, hms, hmg, if_true, hsc]
      refine ⟨by push_cast; omega, by simpa using ihc, fun _ => by simp⟩
    · have hmg' : isMoneyGoal h = false := by simpa using hmg
      simp only [handleIncrementCompletion, hms, hmg', Bool.false_eq_true,
        if_false, if_true, hsc]
      refine ⟨by push_cast; omega, by simp, fun _ => by simp⟩

/-- Witness for C9 at a concrete incompletely configured habit. -/
theorem c9_witness :
    ((handleIncrementCompletion
        { id := "u", oneTimeValue := none, goal := none, rewardValue := none,
          stepType := some StepType.multiple, goalFormat := some GoalFormat.times,
          stepValue := some 5 })^[3] (defaultProgress "u")).stepsCompleted = 3
    ∧ ((handleIncrementCompletion
        { id := "u", oneTimeValue := none, goal := none, rewardValue := none,
          stepType := some StepType.multiple, goalFormat := some GoalFormat.times,
          stepValue := some 5 })^[3] (defaultProgress "u")).completions = 0
    ∧ (1 ≤ 3 → ((handleIncrementCompletion
        { id := "u", oneTimeValue := none, goal := none, rewardValue := none,
          stepType := some StepType.multiple, goalFormat := some GoalFormat.times,
          stepValue := some 5 })^[3] (defaultProgress "u")).completed = false) :=
  c9_zero_cycle_is_benign _ _ rfl (Or.inl rfl) rfl 3

/-! ### Claim C5 -/

/-- **C5**: for every multi-step count/time habit with cycle size
`stepsCount = k > 0` and reward `r ≥ 1`, starting from zero progress, after
`n` increments the state satisfies `stepsCompleted = n`,
`completions = ⌊n/k⌋ * r` and `completed = (n ≥ k)`; in particular once the
first cycle is reached `completed` stays `true` under all further
increments. -/
theorem c5_cycle_floor_invariant (h : Habit) (k r : ℤ)
    (hmulti : h.stepType = some StepType.multiple)
    (hmoney : h.goalFormat ≠ some GoalFormat.dollar)
    (hr : h.rewardValue = some r) (hr1 : 1 ≤ r)
    (hk : stepsCount h = k) (hkpos : 0 < k) :
    (∀ n : ℕ,
      ((handleIncrementCompletion h)^[n] (defaultProgress h.id)).stepsCompleted = n
      ∧ ((handleIncrementCompletion h)^[n] (defaultProgress h.id)).completions
          = Int.fdiv n k * r
      ∧ ((handleIncrementCompletion h)^[n] (defaultProgress h.id)).completed
          = decide (k ≤ (n : ℤ)))
    ∧ (∀ n : ℕ, k ≤ (n : ℤ) →
        ((handleIncrementCompletion h)^[n] (defaultProgress h.id)).completed
          = true) := by
  have hms : isMultiStep h = true := by simp [isMultiStep, hmulti]
  have hmg : isMoneyGoal h = false := by simp [isMoneyGoal, hmoney]
  have hrv : jsOr h.rewardValue 1 = r := by
    rw [hr]
    simp only [jsOr]
    rw [if_neg (by omega : ¬ r = 0)]
  have main : ∀ n : ℕ,
      ((handleIncrementCompletion h)^[n] (defaultProgress h.id)).stepsCompleted = n
      ∧ ((handleIncrementCompletion h)^[n] (defaultProgress h.id)).completions
          = Int.fdiv n k * r
      ∧ ((handleIncrementCompletion h)^[n] (defaultProgress h.id)).completed
          = decide (k ≤ (n : ℤ)) := by
    intro n
    induction n with
    | zero =>
      refine ⟨rfl, by simp [defaultProgress, Int.zero_fdiv], ?_⟩
      simp only [Function.iterate_zero, id_eq, defaultProgress]
      symm
      simp only [decide_eq_false_iff_not]
      push_cast
      omega
    | succ m ih =>
      obtain ⟨ihs, ihc, ihd⟩ := ih
      rw [Function.iterate_succ_apply']
      simp only [handleIncrementCompletion, hms, hmg, Bool.false_eq_true,
        if_false, if_true, hk, hrv, ihs, if_pos hkpos]
      refine ⟨by push_cast; ring, by push_cast; ring_nf, ?_⟩
      refine decide_eq_decide.mpr ?_
      constructor
      · rintro ⟨-, hle⟩
        push_cast
        omega
      · intro hle
        exact ⟨hkpos, by push_cast at hle ⊢; omega⟩
  refine ⟨main, fun n hn => ?_⟩
  rw [(main n).2.2]
  simpa using hn

/-- Witness for C5 at the spec's worked example: `goal = 100`,
`stepValue = 25` (so `k = 4`), `rewardValue = 2`, after 5 increments. -/
theorem c5_witness :
    ((handleIncrementCompletion
        { id := "m", oneTimeValue := none, goal := some 100, rewardValue := some 2,
          stepType := some StepType.multiple, goalFormat := some GoalFormat.times,
          stepValue := some 25 })^[5] (defaultProgress "m")).stepsCompleted = 5
    ∧ ((handleIncrementCompletion
        { id := "m", oneTimeValue := none, goal := some 100, rewardValue := some 2,
          stepType := some StepType.multiple, goalFormat := some GoalFormat.times,
          stepValue := some 25 })^[5] (defaultProgress "m")).completions
        = Int.fdiv 5 4 * 2
    ∧ ((handleIncrementCompletion
        { id := "m", oneTimeValue := none, goal := some 100, rewardValue := some 2,
          stepType := some StepType.multiple, goalFormat := some GoalFormat.times,
          stepValue := some 25 })^[5] (defaultProgress "m")).completed
        = decide ((4 : ℤ) ≤ (5 : ℕ)) :=
  (c5_cycle_floor_invariant _ 4 2 rfl (by decide) rfl (by norm_num)
      (by decide) (by norm_num)).1 5

/-! ### Claim C1 -/

/-- **C1**: evaluation of the day-rollover body at a concrete input showing
where the final sync lands.  With stored pointer "2024-03-10", freshly
resolved date "2024-03-11" and one running timer with 600 banked seconds, the
rollover does clear all timers and advance the pointer, but the finalizing
`syncTimersToLogs` call re-resolves `getTodayInTimezone` and therefore writes
the 600 elapsed seconds into the **new** date's log, while the old date's log
receives nothing — contradicting the claimed old-date finalization and the
claimed zero elapsed time on the new date. -/
theorem c1_rollover_finalizes_into_new_date :
    (dayRolloverCheck "2024-03-11" "2024-03-10"
        [("h", { startedAt := 0, accumulatedTime := 600 })] 0 []).1 = "2024-03-11"
    ∧ (dayRolloverCheck "2024-03-11" "2024-03-10"
        [("h", { startedAt := 0, accumulatedTime := 600 })] 0 []).2.1 = []
    ∧ (progressAt (dayRolloverCheck "2024-03-11" "2024-03-10"
        [("h", { startedAt := 0, accumulatedTime := 600 })] 0 []).2.2
        "2024-03-11" "h").map DailyProgress.elapsedTime = some 600
    ∧ rget (dayRolloverCheck "2024-03-11" "2024-03-10"
        [("h", { startedAt := 0, accumulatedTime := 600 })] 0 []).2.2
        "2024-03-10" = none := by
  decide

/-! ### Lemmas about syncing and restoring timers -/

theorem syncProgressStep_rget_ne (now : ℤ) (np : JsRecord DailyProgress)
    (idt : String × TimerEntry) (id : String) (h : id ≠ idt.1) :
    rget (syncProgressStep now np idt) id = rget np id :=
  rget_rset_ne _ _ _ _ h

theorem restoreStep_rget_ne (now : ℤ) (acc : JsRecord TimerEntry)
    (idt : String × TimerEntry) (id : String) (h : id ≠ idt.1) :
    rget (restoreStep now acc idt) id = rget acc id := by
  unfold restoreStep
  split
  · exact rget_rset_ne _ _ _ _ h
  · rfl

theorem foldl_syncProgressStep_absent (now : ℤ) (id : String) :
    ∀ (l : List (String × TimerEntry)) (np : JsRecord DailyProgress),
      (∀ e ∈ l, e.1 ≠ id) →
      rget (l.foldl (syncProgressStep now) np) id = rget np id := by
  intro l
  induction l with
  | nil => intro np _; rfl
  | cons e rest ih =>
    intro np hne
    have hk : e.1 ≠ id := hne e (by simp)
    simp only [List.foldl_cons]
    rw [ih _ (fun e' he' => hne e' (by simp [he']))]
    exact syncProgressStep_rget_ne now np e id (fun h => hk h.symm)

theorem foldl_restoreStep_absent (now : ℤ) (id : String) :
    ∀ (l : List (String × TimerEntry)) (init : JsRecord TimerEntry),
      (∀ e ∈ l, e.1 ≠ id) →
      rget (l.foldl (restoreStep now) init) id = rget init id := by
  intro l
  induction l with
  | nil => intro init _; rfl
  | cons e rest ih =>
    intro init hne
    have hk : e.1 ≠ id := hne e (by simp)
    simp only [List.foldl_cons]
    rw [ih _ (fun e' he' => hne e' (by simp [he']))]
    exact restoreStep_rget_ne now init e id (fun h => hk h.symm)

theorem sync_preserves_absent (timers : JsRecord TimerEntry) (now : ℤ)
    (td id : String) (logs : JsRecord DailyLog) (h : rget timers id = none) :
    progressAt (syncTimersToLogs timers now td logs) td id
      = progressAt logs td id := by
  unfold syncTimersToLogs
  by_cases he : timers.isEmpty = true
  · rw [if_pos he]
  · rw [if_neg he]
    have hfold := foldl_syncProgressStep_absent now id timers
      (((rget logs td).getD (emptyLog td)).progress) (forall_ne_of_rget_none h)
    simp only [progressAt, rget_rset_self, Option.some_bind]
    rw [hfold]
    cases hl : rget logs td with
    | none => simp [hl, emptyLog, rget]
    | some lg => simp [hl]

theorem foldl_syncProgressStep_writes (now : ℤ) (id : String) (t : TimerEntry) :
    ∀ (l : List (String × TimerEntry)) (np : JsRecord DailyProgress),
      NodupKeys l → rget l id = some t →
      ∃ q, rget (l.foldl (syncProgressStep now) np) id = some q
        ∧ q.elapsedTime = computeElapsedTime t now := by
  intro l
  induction l with
  | nil => intro np _ h; simp [rget] at h
  | cons e rest ih =>
    intro np hnd h
    obtain ⟨k, u⟩ := e
    unfold NodupKeys at hnd
    simp only [List.map_cons, List.nodup_cons] at hnd
    simp only [rget] at h
    by_cases hk : k = id
    · subst hk
      rw [if_pos rfl] at h
      obtain rfl : u = t := by injection h
      simp only [List.foldl_cons]
      rw [foldl_syncProgressStep_absent now k rest _
        (fun e' he' hke => hnd.1 (hke ▸ List.mem_map_of_mem Prod.fst he'))]
      exact ⟨_, rget_rset_self _ _ _, rfl⟩
    · rw [if_neg hk] at h
      simp only [List.foldl_cons]
      exact ih _ hnd.2 h

theorem sync_writes_elapsed (timers : JsRecord TimerEntry) (now : ℤ)
    (td id : String) (logs : JsRecord DailyLog) (t : TimerEntry)
    (hnd : NodupKeys timers) (h : rget timers id = some t) :
    ∃ q, progressAt (syncTimersToLogs timers now td logs) td id = some q
      ∧ q.elapsedTime = computeElapsedTime t now := by
  have hne : ¬ timers.isEmpty = true := by
    cases timers with
    | nil => simp [rget] at h
    | cons a l => simp [List.isEmpty]
  unfold syncTimersToLogs
  rw [if_neg hne]
  obtain ⟨q, hq, hqe⟩ := foldl_syncProgressStep_writes now id t timers
    (((rget logs td).getD (emptyLog td)).progress) hnd h
  refine ⟨q, ?_, hqe⟩
  simp only [progressAt, rget_rset_self, Option.some_bind]
  exact hq

theorem mem_keys_rset {α : Type} {r : JsRecord α} {k a : String} {v : α}
    (h : a ∈ (rset r k v).map Prod.fst) : a ∈ r.map Prod.fst ∨ a = k := by
  rcases List.mem_map.mp h with ⟨e, he, rfl⟩
  rcases mem_rset he with h' | h'
  · exact Or.inl (List.mem_map_of_mem _ h')
  · rw [h']
    exact Or.inr rfl

theorem nodupKeys_rset {α : Type} (k : String) (v : α) :
    ∀ (r : JsRecord α), NodupKeys r → NodupKeys (rset r k v) := by
  intro r
  induction r with
  | nil =>
    intro _
    simp [rset, NodupKeys]
  | cons e rest ih =>
    intro h
    obtain ⟨k₀, v₀⟩ := e
    unfold NodupKeys at h ⊢
    simp only [List.map_cons, List.nodup_cons] at h
    by_cases hk : k₀ = k
    · subst hk
      have hrw : rset ((k₀, v₀) :: rest) k₀ v = (k₀, v) :: rest := by
        simp [rset]
      rw [hrw]
      simp only [List.map_cons, List.nodup_cons]
      exact h
    · simp only [rset, if_neg hk, List.map_cons, List.nodup_cons]
      refine ⟨?_, ih h.2⟩
      intro hmem
      rcases mem_keys_rset hmem with hmem | hmem
      · exact h.1 hmem
      · exact hk hmem

theorem nodupKeys_foldl_restoreStep (now : ℤ) :
    ∀ (l : List (String × TimerEntry)) (init : JsRecord TimerEntry),
      NodupKeys init → NodupKeys (l.foldl (restoreStep now) init) := by
  intro l
  induction l with
  | nil => intro init h; exact h
  | cons e rest ih =>
    intro init h
    simp only [List.foldl_cons]
    refine ih _ ?_
    unfold restoreStep
    split
    · exact nodupKeys_rset _ _ _ h
    · exact h

theorem restore_fold_rget (now : ℤ) (id : String) (t : TimerEntry) :
    ∀ (parsed : JsRecord TimerEntry) (init : JsRecord TimerEntry),
      NodupKeys parsed → rget init id = none → rget parsed id = some t →
      rget (parsed.foldl (restoreStep now) init) id =
        if rawElapsed t now < TIMER_MAX_DURATION_SECONDS then some t else none := by
  intro parsed
  induction parsed with
  | nil => intro init _ _ h; simp [rget] at h
  | cons e rest ih =>
    intro init hnd hinit h
    obtain ⟨k, u⟩ := e
    unfold NodupKeys at hnd
    simp only [List.map_cons, List.nodup_cons] at hnd
    simp only [rget] at h
    by_cases hk : k = id
    · subst hk
      rw [if_pos rfl] at h
      obtain rfl : u = t := by injection h
      simp only [List.foldl_cons]
      rw [foldl_restoreStep_absent now k rest _
        (fun e' he' hke => hnd.1 (hke ▸ List.mem_map_of_mem Prod.fst he'))]
      unfold restoreStep
      by_cases hlt : rawElapsed u now < TIMER_MAX_DURATION_SECONDS
      · simp only [if_pos hlt]
        exact rget_rset_self _ _ _
      · simp only [if_neg hlt]
        exact hinit
    · rw [if_neg hk] at h
      simp only [List.foldl_cons]
      refine ih _ hnd.2 ?_ h
      rw [restoreStep_rget_ne now init (k, u) id (fun h' => hk h'.symm)]
      exact hinit

/-! ### Claim C2 -/

/-- **C2** counterexample: a persisted timer started at instant 0 with 0
banked seconds, resumed at `now = 7 200 000` ms (raw elapsed 7200 =
`MAX_SESSION_SECONDS`), is dropped — but the day's progress log is left
exactly as it was (here showing 100 elapsed seconds), not set to
`MAX_SESSION_SECONDS` as the claim states. -/
theorem c2_counterexample :
    (restoreActiveTimers [("h", { startedAt := 0, accumulatedTime := 0 })]
        7200000 "2024-03-10"
        [("2024-03-10", { date := "2024-03-10", mood := 0,
                          progress := [("h", { defaultProgress "h" with
                                               elapsedTime := 100 })] })]).1 = []
    ∧ (progressAt (restoreActiveTimers
          [("h", { startedAt := 0, accumulatedTime := 0 })] 7200000 "2024-03-10"
          [("2024-03-10", { date := "2024-03-10", mood := 0,
                            progress := [("h", { defaultProgress "h" with
                                                 elapsedTime := 100 })] })]).2
        "2024-03-10" "h").map DailyProgress.elapsedTime = some 100
    ∧ (progressAt (restoreActiveTimers
          [("h", { startedAt := 0, accumulatedTime := 0 })] 7200000 "2024-03-10"
          [("2024-03-10", { date := "2024-03-10", mood := 0,
                            progress := [("h", { defaultProgress "h" with
                                                 elapsedTime := 100 })] })]).2
        "2024-03-10" "h").map DailyProgress.elapsedTime
        ≠ some TIMER_MAX_DURATION_SECONDS := by
  refine ⟨by decide, by decide, by decide⟩

/-- **C2** amended: for every persisted `ActiveTimer` entry with
`startedAt = T0` and `accumulatedTime = A`, resuming at instant `T1` computes
the raw elapsed `A + ⌊(T1-T0)/1000⌋`.  Entries strictly below
`MAX_SESSION_SECONDS` are kept running and their derived elapsed time
`min(A + ⌊(T1-T0)/1000⌋, MAX_SESSION_SECONDS)` is immediately synced into
today's progress.  Entries at or above the ceiling are dropped (not kept
running), and the day's progress log for that habit is left unchanged — it is
**not** finalized to `MAX_SESSION_SECONDS`. -/
theorem c2_amended_resume (parsed : JsRecord TimerEntry) (now : ℤ)
    (td id : String) (t : TimerEntry) (logs : JsRecord DailyLog)
    (hnd : NodupKeys parsed) (hget : rget parsed id = some t) :
    (rawElapsed t now < TIMER_MAX_DURATION_SECONDS →
      rget (restoreActiveTimers parsed now td logs).1 id = some t
      ∧ ∃ q, progressAt (restoreActiveTimers parsed now td logs).2 td id = some q
          ∧ q.elapsedTime = computeElapsedTime t now)
    ∧ (TIMER_MAX_DURATION_SECONDS ≤ rawElapsed t now →
      rget (restoreActiveTimers parsed now td logs).1 id = none
      ∧ progressAt (restoreActiveTimers parsed now td logs).2 td id
          = progressAt logs td id) := by
  have hsa := restore_fold_rget now id t parsed [] hnd rfl hget
  have hndsa := nodupKeys_foldl_restoreStep now parsed [] (by simp [NodupKeys])
  constructor
  · intro hlt
    have h1 : rget (parsed.foldl (restoreStep now) []) id = some t := by
      rw [hsa, if_pos hlt]
    exact ⟨h1, sync_writes_elapsed _ now td id logs t hndsa h1⟩
  · intro hge
    have h1 : rget (parsed.foldl (restoreStep now) []) id = none := by
      rw [hsa, if_neg (by omega)]
    exact ⟨h1, sync_preserves_absent _ now td id logs h1⟩

/-- Witness for the amended C2: a surviving timer (raw elapsed 11 s) is kept
and synced. -/
theorem c2_witness :
    rawElapsed { startedAt := 0, accumulatedTime := 10 } 1000
        < TIMER_MAX_DURATION_SECONDS
    ∧ (rget (restoreActiveTimers [("h", { startedAt := 0, accumulatedTime := 10 })]
          1000 "2024-03-10" []).1 "h"
        = some { startedAt := 0, accumulatedTime := 10 }
      ∧ ∃ q, progressAt (restoreActiveTimers
            [("h", { startedAt := 0, accumulatedTime := 10 })]
            1000 "2024-03-10" []).2 "2024-03-10" "h" = some q
          ∧ q.elapsedTime
            = computeElapsedTime { startedAt := 0, accumulatedTime := 10 } 1000) :=
  ⟨by decide,
    (c2_amended_resume [("h", { startedAt := 0, accumulatedTime := 10 })] 1000
      "2024-03-10" "h" { startedAt := 0, accumulatedTime := 10 } []
      (by simp [NodupKeys]) (by decide)).1 (by decide)⟩

/-! ### Lemmas about auto-stopping -/

theorem stopTimer_stops (id : String) (ts : JsRecord TimerEntry) (now : ℤ)
    (td : String) (ls : JsRecord DailyLog) (t : TimerEntry)
    (hget : rget ts id = some t) :
    rget (stopTimer id ts now td ls).1 id = none
    ∧ ∃ q, progressAt (stopTimer id ts now td ls).2 td id = some q
        ∧ q.elapsedTime = computeElapsedTime t now := by
  have h1 : rget (stopTimer id ts now td ls).1 id = none := by
    unfold stopTimer
    rw [hget]
    exact rget_rremove_self _ _
  have hq : progressAt (stopTimer id ts now td ls).2 td id = some
      { ((rget (((rget ls td).getD (emptyLog td)).progress) id).getD
          (defaultProgress id)) with
        elapsedTime := computeElapsedTime t now } := by
    unfold stopTimer
    rw [hget]
    simp only [progressAt, rget_rset_self, Option.some_bind]
  exact ⟨h1, ⟨_, hq, rfl⟩⟩

theorem stopTimer_preserves_stopped (k id : String) (ts : JsRecord TimerEntry)
    (now : ℤ) (td : String) (ls : JsRecord DailyLog)
    (h1 : rget ts id = none)
    (h2 : ∃ q, progressAt ls td id = some q
        ∧ q.elapsedTime = TIMER_MAX_DURATION_SECONDS) :
    rget (stopTimer k ts now td ls).1 id = none
    ∧ ∃ q, progressAt (stopTimer k ts now td ls).2 td id = some q
        ∧ q.elapsedTime = TIMER_MAX_DURATION_SECONDS := by
  unfold stopTimer
  cases hk : rget ts k with
  | none => exact ⟨h1, h2⟩
  | some timer =>
    have hne : k ≠ id := by
      intro hcon
      rw [hcon, h1] at hk
      cases hk
    obtain ⟨q, hq, hqe⟩ := h2
    refine ⟨by rw [rget_rremove_ne _ _ _ (fun h => hne h.symm)]; exact h1, q, ?_, hqe⟩
    simp only [progressAt] at hq ⊢
    cases hls : rget ls td with
    | none => rw [hls] at hq; cases hq
    | some lg =>
      rw [hls] at hq
      simp only [Option.some_bind] at hq
      simp only [rget_rset_self, Option.some_bind, hls, Option.getD_some]
      rw [rget_rset_ne _ _ _ _ (fun h => hne h.symm)]
      exact hq

theorem runAutoStops_preserves_stopped (now : ℤ) (td id : String) :
    ∀ (entries : List (String × TimerEntry))
      (st : JsRecord TimerEntry × JsRecord DailyLog),
      rget st.1 id = none →
      (∃ q, progressAt st.2 td id = some q
        ∧ q.elapsedTime = TIMER_MAX_DURATION_SECONDS) →
      rget (runAutoStops entries now td st).1 id = none
      ∧ ∃ q, progressAt (runAutoStops entries now td st).2 td id = some q
          ∧ q.elapsedTime = TIMER_MAX_DURATION_SECONDS := by
  intro entries
  induction entries with
  | nil => intro st h1 h2; exact ⟨h1, h2⟩
  | cons e rest ih =>
    intro st h1 h2
    obtain ⟨k, timer⟩ := e
    unfold runAutoStops
    split
    · obtain ⟨ha, hb⟩ := stopTimer_preserves_stopped k id st.1 now td st.2 h1 h2
      exact ih _ ha hb
    · exact ih _ h1 h2

theorem runAutoStops_caps (now : ℤ) (td id : String) (t : TimerEntry)
    (hcap : TIMER_MAX_DURATION_SECONDS ≤ computeElapsedTime t now) :
    ∀ (entries : List (String × TimerEntry))
      (st : JsRecord TimerEntry × JsRecord DailyLog),
      rget st.1 id = some t →
      entries.find? (fun e => e.1 == id) = some (id, t) →
      rget (runAutoStops entries now td st).1 id = none
      ∧ ∃ q, progressAt (runAutoStops entries now td st).2 td id = some q
          ∧ q.elapsedTime = TIMER_MAX_DURATION_SECONDS := by
  have hmax : computeElapsedTime t now = TIMER_MAX_DURATION_SECONDS := by
    have hle : computeElapsedTime t now ≤ TIMER_MAX_DURATION_SECONDS :=
      min_le_right _ _
    omega
  intro entries
  induction entries with
  | nil => intro st _ hf; simp [List.find?] at hf
  | cons e rest ih =>
    intro st hget hf
    obtain ⟨k, timer⟩ := e
    by_cases hbeq : k = id
    · subst hbeq
      rw [List.find?_cons_of_pos _ (by simp)] at hf
      obtain rfl : timer = t := by simpa using hf
      unfold runAutoStops
      rw [if_pos hmax.ge]
      obtain ⟨ha, ⟨q, hq, hqe⟩⟩ :=
        stopTimer_stops k st.1 now td st.2 timer hget
      refine runAutoStops_preserves_stopped now td k rest _ ha ⟨q, hq, ?_⟩
      rw [hqe]
      exact hmax
    · rw [List.find?_cons_of_neg _ (by simp [hbeq])] at hf
      unfold runAutoStops
      split
      · refine ih (stopTimer k st.1 now td st.2) ?_ hf
        unfold stopTimer
        cases hk : rget st.1 k with
        | none => exact hget
        | some timer' =>
          rw [rget_rremove_ne _ _ _ (fun h => hbeq h.symm)]
          exact hget
      · exact ih st hget hf

/-! ### Claim C7 -/

/-- **C7**: a running timer whose derived elapsed time has reached
`MAX_SESSION_SECONDS` is force-stopped by the very next tick/onVisible pass
(`tickPass` models the shared body of the 1-second interval and of the
`visibilitychange` handler): afterwards it is no longer running, today's
progress records exactly `MAX_SESSION_SECONDS` — never more — and the
force-stop goes through the same finalize path as a manual stop
(`toggleTimer` on a running timer is literally `stopTimer`). -/
theorem c7_auto_stop_boundary (timers : JsRecord TimerEntry)
    (logs : JsRecord DailyLog) (now : ℤ) (td id : String) (t : TimerEntry)
    (hget : rget timers id = some t)
    (hcap : TIMER_MAX_DURATION_SECONDS ≤ computeElapsedTime t now) :
    rget (tickPass timers now td logs).1 id = none
    ∧ (∃ q, progressAt (tickPass timers now td logs).2 td id = some q
        ∧ q.elapsedTime = TIMER_MAX_DURATION_SECONDS)
    ∧ computeElapsedTime t now = TIMER_MAX_DURATION_SECONDS
    ∧ (∀ ts ls (u : TimerEntry), rget ts id = some u →
        toggleTimer id ts now td ls = stopTimer id ts now td ls) := by
  have hmax : computeElapsedTime t now = TIMER_MAX_DURATION_SECONDS := by
    have hle : computeElapsedTime t now ≤ TIMER_MAX_DURATION_SECONDS :=
      min_le_right _ _
    omega
  obtain ⟨h1, h2⟩ := runAutoStops_caps now td id t hcap timers (timers, logs)
    hget (find_entry_of_rget hget)
  refine ⟨h1, ?_, hmax, ?_⟩
  · unfold tickPass
    rw [sync_preserves_absent _ now td id _ h1]
    exact h2
  · intro ts ls u hu
    unfold toggleTimer stopTimer
    rw [hu]

/-- Witness for C7: a timer with 7200 banked seconds at `now = startedAt` is
auto-stopped by the next pass and the log shows exactly the cap. -/
theorem c7_witness :
    rget (tickPass [("h", { startedAt := 0, accumulatedTime := 7200 })] 0
        "2024-03-10" []).1 "h" = none
    ∧ (∃ q, progressAt (tickPass [("h", { startedAt := 0, accumulatedTime := 7200 })]
          0 "2024-03-10" []).2 "2024-03-10" "h" = some q
        ∧ q.elapsedTime = TIMER_MAX_DURATION_SECONDS) :=
  ⟨(c7_auto_stop_boundary [("h", { startedAt := 0, accumulatedTime := 7200 })] [] 0
      "2024-03-10" "h" { startedAt := 0, accumulatedTime := 7200 }
      (by decide) (by decide)).1,
    (c7_auto_stop_boundary [("h", { startedAt := 0, accumulatedTime := 7200 })] [] 0
      "2024-03-10" "h" { startedAt := 0, accumulatedTime := 7200 }
      (by decide) (by decide)).2.1⟩

/-! ### Lemmas for the non-negativity invariant -/

theorem nonneg_defaultProgress (i : String) : NonnegProgress (defaultProgress i) := by
  refine ⟨?_, ?_, ?_, ?_⟩ <;> norm_num [defaultProgress]

theorem computeElapsedTime_nonneg (t : TimerEntry) (now : ℤ)
    (h1 : 0 ≤ t.accumulatedTime) (h2 : t.startedAt ≤ now) :
    0 ≤ computeElapsedTime t now := by
  have hf : 0 ≤ Int.fdiv (now - t.startedAt) 1000 :=
    Int.fdiv_nonneg (by omega) (by norm_num)
  exact le_min (by omega) (by norm_num [TIMER_MAX_DURATION_SECONDS])

theorem nonnegLog_current (logs : JsRecord DailyLog) (d : String)
    (h : NonnegLogs logs) : NonnegLog ((rget logs d).getD (emptyLog d)) := by
  cases hl : rget logs d with
  | none =>
    intro i p hp
    simp [emptyLog, rget] at hp
  | some lg => exact h d lg hl

theorem nonnegLogs_rset (logs : JsRecord DailyLog) (d : String) (lg : DailyLog)
    (h : NonnegLogs logs) (hlg : NonnegLog lg) : NonnegLogs (rset logs d lg) := by
  intro d' lg' h'
  by_cases hd : d' = d
  · subst hd
    rw [rget_rset_self] at h'
    injection h' with h''
    rw [← h'']
    exact hlg
  · rw [rget_rset_ne _ _ _ _ hd] at h'
    exact h d' lg' h'

theorem nonneg_map_rset (np : JsRecord DailyProgress) (i : String) (p : DailyProgress)
    (h : ∀ j q, rget np j = some q → NonnegProgress q) (hp : NonnegProgress p) :
    ∀ j q, rget (rset np i p) j = some q → NonnegProgress q := by
  intro j q hq
  by_cases hj : j = i
  · subst hj
    rw [rget_rset_self] at hq
    injection hq with hq'
    rw [← hq']
    exact hp
  · rw [rget_rset_ne _ _ _ _ hj] at hq
    exact h j q hq

theorem foldl_syncProgressStep_nonneg (now : ℤ) :
    ∀ (l : List (String × TimerEntry)) (np : JsRecord DailyProgress),
      (∀ e ∈ l, 0 ≤ e.2.accumulatedTime ∧ e.2.startedAt ≤ now) →
      (∀ j q, rget np j = some q → NonnegProgress q) →
      ∀ j q, rget (l.foldl (syncProgressStep now) np) j = some q →
        NonnegProgress q := by
  intro l
  induction l with
  | nil => intro np _ hnp; exact hnp
  | cons e rest ih =>
    intro np hl hnp
    simp only [List.foldl_cons]
    refine ih _ (fun e' he' => hl e' (by simp [he'])) ?_
    have hval := hl e (by simp)
    have hpbase : NonnegProgress ((rget np e.1).getD (defaultProgress e.1)) := by
      cases hb : rget np e.1 with
      | none => simpa [hb] using nonneg_defaultProgress e.1
      | some q₀ => simpa [hb] using hnp e.1 q₀ hb
    refine nonneg_map_rset np e.1 _ hnp ?_
    obtain ⟨hc, hs, hm, _⟩ := hpbase
    exact ⟨hc, hs, hm, computeElapsedTime_nonneg e.2 now hval.1 hval.2⟩

theorem sync_nonneg (timers : JsRecord TimerEntry) (now : ℤ) (td : String)
    (logs : JsRecord DailyLog) (hts : TimersValid timers now)
    (h : NonnegLogs logs) : NonnegLogs (syncTimersToLogs timers now td logs) := by
  unfold syncTimersToLogs
  split
  · exact h
  · refine nonnegLogs_rset logs td _ h ?_
    exact foldl_syncProgressStep_nonneg now timers
      (((rget logs td).getD (emptyLog td)).progress) hts
      (nonnegLog_current logs td h)

theorem stopTimer_valid (k : String) (ts : JsRecord TimerEntry) (now : ℤ)
    (td : String) (ls : JsRecord DailyLog) (hts : TimersValid ts now)
    (hls : NonnegLogs ls) :
    TimersValid (stopTimer k ts now td ls).1 now
    ∧ NonnegLogs (stopTimer k ts now td ls).2 := by
  unfold stopTimer
  cases hk : rget ts k with
  | none => exact ⟨hts, hls⟩
  | some t =>
    have hval := hts (k, t) (mem_of_rget hk)
    constructor
    · intro e he
      exact hts e (mem_rremove he)
    · refine nonnegLogs_rset ls td _ hls ?_
      have hbase : NonnegLog ((rget ls td).getD (emptyLog td)) :=
        nonnegLog_current ls td hls
      have hp : NonnegProgress
          ((rget (((rget ls td).getD (emptyLog td)).progress) k).getD
            (defaultProgress k)) := by
        cases hb : rget (((rget ls td).getD (emptyLog td)).progress) k with
        | none => simpa [hb] using nonneg_defaultProgress k
        | some q₀ => simpa [hb] using hbase k q₀ hb
      obtain ⟨hc, hs, hm, _⟩ := hp
      exact nonneg_map_rset _ k _ hbase
        ⟨hc, hs, hm, computeElapsedTime_nonneg t now hval.1 hval.2⟩

theorem runAutoStops_valid (now : ℤ) (td : String) :
    ∀ (entries : List (String × TimerEntry))
      (st : JsRecord TimerEntry × JsRecord DailyLog),
      TimersValid st.1 now → NonnegLogs st.2 →
      TimersValid (runAutoStops entries now td st).1 now
      ∧ NonnegLogs (runAutoStops entries now td st).2 := by
  intro entries
  induction entries with
  | nil => intro st h1 h2; exact ⟨h1, h2⟩
  | cons e rest ih =>
    intro st h1 h2
    obtain ⟨k, timer⟩ := e
    unfold runAutoStops
    split
    · obtain ⟨ha, hb⟩ := stopTimer_valid k st.1 now td st.2 h1 h2
      exact ih _ ha hb
    · exact ih st h1 h2

theorem mem_foldl_restoreStep (now : ℤ) :
    ∀ (l : List (String × TimerEntry)) (init : JsRecord TimerEntry)
      (e : String × TimerEntry),
      e ∈ l.foldl (restoreStep now) init → e ∈ init ∨ e ∈ l := by
  intro l
  induction l with
  | nil => intro init e he; exact Or.inl he
  | cons e₀ rest ih =>
    intro init e he
    simp only [List.foldl_cons] at he
    rcases ih _ e he with h | h
    · unfold restoreStep at h
      split at h
      · rcases mem_rset h with h' | h'
        · exact Or.inl h'
        · exact Or.inr (by simp [h'])
      · exact Or.inl h
    · exact Or.inr (by simp [h])

theorem increment_nonneg (h : Habit) (p : DailyProgress)
    (hh : NonnegHabitValues h) (hp : NonnegProgress p) :
    NonnegProgress (handleIncrementCompletion h p) := by
  obtain ⟨h1, h2, h3⟩ := hh
  obtain ⟨hc, hs, hm, he⟩ := hp
  by_cases hms : isMultiStep h = true
  · by_cases hmg : isMoneyGoal h = true
    · simp only [handleIncrementCompletion, hms, hmg, if_true]
      refine ⟨?_, ?_, ?_, ?_⟩ <;> dsimp only <;> omega
    · simp only [handleIncrementCompletion, hms, hmg, Bool.false_eq_true,
        if_true, if_false]
      refine ⟨?_, ?_, ?_, ?_⟩ <;> dsimp only
      · refine mul_nonneg ?_ h2
        split_ifs with hsc
        · exact Int.fdiv_nonneg (by omega) (by omega)
        · exact le_rfl
      · omega
      · omega
      · omega
  · by_cases hmg : isMoneyGoal h = true
    · simp only [handleIncrementCompletion, hms, hmg, Bool.false_eq_true,
        if_true, if_false]
      refine ⟨?_, ?_, ?_, ?_⟩ <;> dsimp only <;> omega
    · simp only [handleIncrementCompletion, hms, hmg, Bool.false_eq_true, if_false]
      refine ⟨?_, ?_, ?_, ?_⟩ <;> dsimp only <;> omega

theorem decrement_nonneg (h : Habit) (p : DailyProgress)
    (hh : NonnegHabitValues h) (hp : NonnegProgress p) :
    NonnegProgress (handleDecrementCompletion h p) := by
  obtain ⟨h1, h2, h3⟩ := hh
  obtain ⟨hc, hs, hm, he⟩ := hp
  by_cases hms : isMultiStep h = true
  · by_cases hguard : p.stepsCompleted ≤ 0
    · simp only [handleDecrementCompletion, hms, if_true, if_pos hguard]
      exact ⟨hc, hs, hm, he⟩
    · by_cases hmg : isMoneyGoal h = true
      · simp only [handleDecrementCompletion, hms, hmg, if_true, if_neg hguard]
        refine ⟨?_, ?_, ?_, ?_⟩ <;> dsimp only
        · exact hc
        · exact le_max_left 0 _
        · exact le_max_left 0 _
        · exact he
      · simp only [handleDecrementCompletion, hms, hmg, Bool.false_eq_true,
          if_true, if_false, if_neg hguard]
        refine ⟨?_, ?_, ?_, ?_⟩ <;> dsimp only
        · refine mul_nonneg ?_ h2
          split_ifs with hsc
          · exact Int.fdiv_nonneg (le_max_left 0 _) (by omega)
          · exact le_rfl
        · exact le_max_left 0 _
        · exact hm
        · exact he
  · by_cases hmg : isMoneyGoal h = true
    · simp only [handleDecrementCompletion, hms, hmg, Bool.false_eq_true,
        if_true, if_false]
      refine ⟨?_, ?_, ?_, ?_⟩ <;> dsimp only
      · exact hc
      · exact hs
      · exact le_max_left 0 _
      · exact he
    · by_cases hguard : p.completions ≤ 0
      · simp only [handleDecrementCompletion, hms, hmg, Bool.false_eq_true,
          if_false, if_pos hguard]
        exact ⟨hc, hs, hm, he⟩
      · simp only [handleDecrementCompletion, hms, hmg, Bool.false_eq_true,
          if_false, if_neg hguard]
        refine ⟨?_, ?_, ?_, ?_⟩ <;> dsimp only
        · exact le_max_left 0 _
        · exact hs
        · exact hm
        · exact le_max_left 0 _

/-! ### Claim C10 -/

/-- **C10**: after every public operation — increment, decrement (record- and
log-level), timer toggle, timer stop, a tick/onVisible pass, a sync, resume,
and mood set — all numeric fields of every `DailyProgress` record stay ≥ 0,
given non-negative habit configuration values, valid timers (started no later
than `now`, non-negative banked time) and an initially non-negative log
collection; every subtraction in the handlers is clamped at 0. -/
theorem c10_nonnegativity_invariant :
    (∀ (hb : Habit) (p : DailyProgress), NonnegHabitValues hb → NonnegProgress p →
      NonnegProgress (handleIncrementCompletion hb p))
    ∧ (∀ (hb : Habit) (p : DailyProgress), NonnegHabitValues hb → NonnegProgress p →
      NonnegProgress (handleDecrementCompletion hb p))
    ∧ (∀ (hb : Habit) (td : String) (logs : JsRecord DailyLog),
      NonnegHabitValues hb → NonnegLogs logs →
      NonnegLogs (incrementInLog hb td logs))
    ∧ (∀ (hb : Habit) (td : String) (logs : JsRecord DailyLog),
      NonnegHabitValues hb → NonnegLogs logs →
      NonnegLogs (decrementInLog hb td logs))
    ∧ (∀ (id : String) (timers : JsRecord TimerEntry) (now : ℤ) (td : String)
        (logs : JsRecord DailyLog), TimersValid timers now → NonnegLogs logs →
      TimersValid (toggleTimer id timers now td logs).1 now
      ∧ NonnegLogs (toggleTimer id timers now td logs).2)
    ∧ (∀ (id : String) (timers : JsRecord TimerEntry) (now : ℤ) (td : String)
        (logs : JsRecord DailyLog), TimersValid timers now → NonnegLogs logs →
      TimersValid (stopTimer id timers now td logs).1 now
      ∧ NonnegLogs (stopTimer id timers now td logs).2)
    ∧ (∀ (timers : JsRecord TimerEntry) (now : ℤ) (td : String)
        (logs : JsRecord DailyLog), TimersValid timers now → NonnegLogs logs →
      TimersValid (tickPass timers now td logs).1 now
      ∧ NonnegLogs (tickPass timers now td logs).2)
    ∧ (∀ (timers : JsRecord TimerEntry) (now : ℤ) (td : String)
        (logs : JsRecord DailyLog), TimersValid timers now → NonnegLogs logs →
      NonnegLogs (syncTimersToLogs timers now td logs))
    ∧ (∀ (parsed : JsRecord TimerEntry) (now : ℤ) (td : String)
        (logs : JsRecord DailyLog), TimersValid parsed now → NonnegLogs logs →
      TimersValid (restoreActiveTimers parsed now td logs).1 now
      ∧ NonnegLogs (restoreActiveTimers parsed now td logs).2)
    ∧ (∀ (td : String) (mood : ℤ) (logs : JsRecord DailyLog), NonnegLogs logs →
      NonnegLogs (updateMood td mood logs)) := by
  refine ⟨increment_nonneg, decrement_nonneg, ?_, ?_, ?_, ?_, ?_, ?_, ?_, ?_⟩
  · intro hb td logs hh hl
    simp only [incrementInLog, writeProgress]
    refine nonnegLogs_rset _ _ _ hl ?_
    refine nonneg_map_rset _ _ _ (nonnegLog_current logs td hl) ?_
    refine increment_nonneg hb _ hh ?_
    cases hbp : rget (((rget logs td).getD (emptyLog td)).progress) hb.id with
    | none => simpa [hbp] using nonneg_defaultProgress hb.id
    | some q => simpa [hbp] using nonnegLog_current logs td hl hb.id q hbp
  · intro hb td logs hh hl
    simp only [decrementInLog]
    cases hbp : rget (((rget logs td).getD (emptyLog td)).progress) hb.id with
    | none => exact hl
    | some q =>
      show NonnegLogs (writeProgress td hb.id (handleDecrementCompletion hb q) logs)
      simp only [writeProgress]
      refine nonnegLogs_rset _ _ _ hl ?_
      refine nonneg_map_rset _ _ _ (nonnegLog_current logs td hl) ?_
      exact decrement_nonneg hb q hh (nonnegLog_current logs td hl hb.id q hbp)
  · intro id timers now td logs hts hl
    unfold toggleTimer
    cases hk : rget timers id with
    | some t =>
      have hval := hts (id, t) (mem_of_rget hk)
      constructor
      · intro e he
        exact hts e (mem_rremove he)
      · refine nonnegLogs_rset _ _ _ hl ?_
        have hbase : NonnegLog ((rget logs td).getD (emptyLog td)) :=
          nonnegLog_current logs td hl
        have hp : NonnegProgress
            ((rget (((rget logs td).getD (emptyLog td)).progress) id).getD
              (defaultProgress id)) := by
          cases hbp : rget (((rget logs td).getD (emptyLog td)).progress) id with
          | none => simpa [hbp] using nonneg_defaultProgress id
          | some q₀ => simpa [hbp] using hbase id q₀ hbp
        obtain ⟨hc, hs, hm, _⟩ := hp
        exact nonneg_map_rset _ id _ hbase
          ⟨hc, hs, hm, computeElapsedTime_nonneg t now hval.1 hval.2⟩
    | none =>
      constructor
      · intro e he
        rcases mem_rset he with h' | h'
        · exact hts e h'
        · rw [h']
          refine ⟨?_, le_refl now⟩
          cases hbp : rget (((rget logs td).getD (emptyLog td)).progress) id with
          | none => simp [hbp]
          | some q₀ =>
            simp only [hbp, Option.map_some, Option.getD_some]
            exact (nonnegLog_current logs td hl id q₀ hbp).2.2.2
      · exact hl
  · intro id timers now td logs hts hl
    exact stopTimer_valid id timers now td logs hts hl
  · intro timers now td logs hts hl
    unfold tickPass
    obtain ⟨hv, hn⟩ := runAutoStops_valid now td timers (timers, logs) hts hl
    exact ⟨hv, sync_nonneg _ now td _ hv hn⟩
  · intro timers now td logs hts hl
    exact sync_nonneg timers now td logs hts hl
  · intro parsed now td logs hts hl
    have hv : TimersValid (parsed.foldl (restoreStep now) []) now := by
      intro e he
      rcases mem_foldl_restoreStep now parsed [] e he with h' | h'
      · cases h'
      · exact hts e h'
    exact ⟨hv, sync_nonneg _ now td _ hv hl⟩
  · intro td mood logs hl
    unfold updateMood
    refine nonnegLogs_rset _ _ _ hl ?_
    exact nonnegLog_current logs td hl

/-- Witness for C10: the increment and decrement conjuncts at a concrete habit
and state. -/
theorem c10_witness :
    NonnegHabitValues
      { id := "w", oneTimeValue := some 15, goal := none, rewardValue := some 1,
        stepType := some StepType.single, goalFormat := some GoalFormat.times,
        stepValue := none }
    ∧ NonnegProgress
      { habitId := "w", completed := false, completions := 1, elapsedTime := 900,
        stepsCompleted := 0, moneyEarned := 0, skipped := false }
    ∧ NonnegProgress (handleIncrementCompletion
      { id := "w", oneTimeValue := some 15, goal := none, rewardValue := some 1,
        stepType := some StepType.single, goalFormat := some GoalFormat.times,
        stepValue := none }
      { habitId := "w", completed := false, completions := 1, elapsedTime := 900,
        stepsCompleted := 0, moneyEarned := 0, skipped := false })
    ∧ NonnegProgress (handleDecrementCompletion
      { id := "w", oneTimeValue := some 15, goal := none, rewardValue := some 1,
        stepType := some StepType.single, goalFormat := some GoalFormat.times,
        stepValue := none }
      { habitId := "w", completed := false, completions := 1, elapsedTime := 900,
        stepsCompleted := 0, moneyEarned := 0, skipped := false }) :=
  ⟨⟨by norm_num [jsOr], by norm_num [jsOr], by norm_num [jsOr]⟩,
    ⟨by norm_num, by norm_num, by norm_num, by norm_num⟩,
    c10_nonnegativity_invariant.1 _ _
      ⟨by norm_num [jsOr], by norm_num [jsOr], by norm_num [jsOr]⟩
      ⟨by norm_num, by norm_num, by norm_num, by norm_num⟩,
    c10_nonnegativity_invariant.2.1 _ _
      ⟨by norm_num [jsOr], by norm_num [jsOr], by norm_num [jsOr]⟩
      ⟨by norm_num, by norm_num, by norm_num, by norm_num⟩⟩

end Fragments
